import Mathlib

/-!
# batchqueue: the Hub (`batch`) of a batching queue

A verification development for `batch.go`.  The Hub owns a free list of recycled local
buffers, a working queue of published local buffers with a condition variable, and the
configured capacity of a local buffer.

Methods with a pointer receiver `b *batch` are embedded as functions of the state the
pointer refers to, returning the new state next to the Go result.  A `*queue` is a
non-nil local buffer and is identified with its contents.  A `*userq` is a position in
the memory of Handles, where `GetQueue` allocates.
-/

namespace hqu

/-- Modelled from the spec: the external LIFO stack `hqu.Stack` with non-blocking
`Push(v)` and `Pop() -> (v, ok)`.  The head of `elems` is the top of the stack. -/
structure Stack (β : Type) where
  elems : List β
deriving DecidableEq, Repr

/-- Modelled from the spec: `Stack.Push(v)` puts `v` on top. -/
def Stack.Push {β : Type} (s : Stack β) (v : β) : Stack β :=
  { elems := v :: s.elems }

/-- Modelled from the spec: `Stack.Pop() -> (v, ok)`; `none` stands for `ok = false`. -/
def Stack.Pop {β : Type} (s : Stack β) : Option (β × Stack β) :=
  match s.elems with
  | [] => none
  | v :: rest => some (v, { elems := rest })

/-- Modelled from the spec: the external FIFO queue `hqu.Queue`.  The head of `elems`
is the oldest element, the next one to be removed. -/
structure Queue (β : Type) where
  elems : List β
deriving DecidableEq, Repr

/-- Modelled from the spec: `Enqueue(v) -> newLength` inserts at the back and returns
the queue length immediately after the insertion. -/
def Queue.Enqueue1 {β : Type} (q : Queue β) (v : β) : Queue β × Nat :=
  ({ elems := q.elems ++ [v] }, (q.elems ++ [v]).length)

/-- Modelled from the spec: the non-blocking `Dequeue() -> (v, ok)` removes the oldest
element; `none` stands for `ok = false`. -/
def Queue.Dequeue0 {β : Type} (q : Queue β) : Option (β × Queue β) :=
  match q.elems with
  | [] => none
  | v :: rest => some (v, { elems := rest })

end hqu

namespace sync

/-- Modelled from the spec: the condition variable bound to the working queue's mutex.
In the sequential embedding its only observable is the number of `Signal()` calls
issued on it so far. -/
structure Cond where
  signals : Nat
deriving DecidableEq, Repr

/-- The condition variable made by `sync.NewCond`: nothing signalled yet. -/
def NewCond : Cond := { signals := 0 }

/-- One call of `Signal()`. -/
def Cond.Signal (c : Cond) : Cond := { signals := c.signals + 1 }

end sync

namespace batchqueue

/-- Modelled from the spec: the local buffer `queue` (its source file is missing): an
ordered sequence of items and the fixed capacity it was created with. -/
structure queue (α : Type) where
  items : List α
  capacity : Int
deriving DecidableEq, Repr

/-- Modelled from the spec: `newQueue(capacity)` allocates a new, empty local buffer of
the given capacity. -/
def newQueue {α : Type} (capacity : Int) : queue α :=
  { items := [], capacity := capacity }

/-- The Hub: `type batch struct` (batch.go lines 18-32). -/
structure batch (α : Type) where
  freelist : hqu.Stack (queue α)
  workingq : hqu.Queue (queue α)
  wcond : sync.Cond
  capacity : Int
deriving DecidableEq, Repr

/-- The constructor `NewBatch(capacity)` (batch.go lines 36-41): the zero value of
`batch` with the condition variable and the capacity set. -/
def NewBatch {α : Type} (capacity : Int) : batch α :=
  { freelist := { elems := [] }
    workingq := { elems := [] }
    wcond := sync.NewCond
    capacity := capacity }

/-- The method `get` (batch.go lines 74-82): pop a local buffer from the free list, or
create a new one when the free list is empty. -/
def batch.get {α : Type} (b : batch α) : queue α × batch α :=
  match b.freelist.Pop with
  | some (v, fl) => (v, { b with freelist := fl })
  | none => (newQueue b.capacity, b)

/-- The method `free` (batch.go lines 85-87): push a local buffer on the free list. -/
def batch.free {α : Type} (b : batch α) (q : queue α) : batch α :=
  { b with freelist := b.freelist.Push q }

/-- The method `put` (batch.go lines 90-95): insert a local buffer in the working queue
and signal the condition variable when the resulting length is 1. -/
def batch.put {α : Type} (b : batch α) (q : queue α) : batch α :=
  let r := b.workingq.Enqueue1 q
  if r.2 = 1 then
    { b with workingq := r.1, wcond := b.wcond.Signal }
  else
    { b with workingq := r.1 }

/-- What a call of `wait` comes to: it returned a local buffer, or the goroutine is
still parked inside `wcond.Wait()`. -/
inductive WaitOutcome (α : Type) where
  | returned (q : queue α) (b : batch α)
  | parked (b : batch α)
deriving DecidableEq, Repr

/-- The method `wait` (batch.go lines 99-112): the loop that tries a non-blocking
remove and parks on the condition variable when the working queue is empty.

The goroutine runs alone except while it is parked: `env` lists, for each time it
parks, the local buffers other goroutines `put` before it runs again (an empty round
is a wake-up with nothing published).  When `env` is used up the goroutine stays
parked.  The mutex it holds around the loop is not part of this sequential state. -/
def batch.wait {α : Type} : List (List (queue α)) → batch α → WaitOutcome α
  | env, b =>
    match b.workingq.Dequeue0 with
    | some (v, wq) => WaitOutcome.returned v { b with workingq := wq }
    | none =>
      match env with
      | [] => WaitOutcome.parked b
      | puts :: rest => batch.wait rest (puts.foldl batch.put b)

/-- A sequence of `put` calls, first buffer first. -/
def batch.puts {α : Type} (b : batch α) (qs : List (queue α)) : batch α :=
  qs.foldl batch.put b

/-- A sequence of `wait` calls by one goroutine, one `env` for each call: the local
buffers returned, in call order, and the final state; `none` when one of the calls
stays parked, so that the sequence never completes. -/
def batch.waits {α : Type} :
    List (List (List (queue α))) → batch α → Option (List (queue α) × batch α)
  | [], b => some ([], b)
  | env :: envs, b =>
    match b.wait env with
    | WaitOutcome.parked _ => none
    | WaitOutcome.returned q b1 =>
      match batch.waits envs b1 with
      | none => none
      | some (qs, b2) => some (q :: qs, b2)

/-! ## The Handle -/

/-- Modelled from the spec: the Handle `userq` (its type declaration is missing): the
reference to its Hub, kept as the address the `*batch` pointer holds, and the local
buffer it currently owns, `none` for the nil pointer of the zero value. -/
structure userq (α : Type) where
  b : Nat
  q : Option (queue α)
deriving DecidableEq, Repr

/-- What a call of `GetQueue` returns and leaves behind: the pointer `&q` it returns,
the Handle `q` that pointer refers to, the Hub state and the memory of Handles after
the call.  A `*userq` is a position in the memory of Handles. -/
structure GetQueueOutcome (α : Type) where
  ptr : Nat
  handle : userq α
  hub : batch α
  mem : List (userq α)
deriving DecidableEq, Repr

/-- The method `GetQueue` (batch.go lines 66-70): `var q userq` allocates a zero-valued
Handle behind the Handles already in `mem`, `q.b = b` stores the receiver in it, and
`&q`, its position, is returned.  `self` is the address of the Hub, `b` the state at
that address. -/
def batch.GetQueue {α : Type} (self : Nat) (b : batch α) (mem : List (userq α)) :
    GetQueueOutcome α :=
  let q : userq α := { b := self, q := none }
  { ptr := mem.length, handle := q, hub := b, mem := mem ++ [q] }

/-- Modelled from the spec: appending an item to a local buffer. -/
def queue.enqueue {α : Type} (q : queue α) (x : α) : queue α :=
  { q with items := q.items ++ [x] }

/-- Modelled from the spec: the fill count of a local buffer has reached its capacity. -/
def queue.full {α : Type} (q : queue α) : Bool :=
  decide ((q.items.length : Int) = q.capacity)

/-- Modelled from the spec: removing the next item of a local buffer, `none` when it
is exhausted. -/
def queue.dequeue {α : Type} (q : queue α) : Option (α × queue α) :=
  match q.items with
  | [] => none
  | x :: rest => some (x, { q with items := rest })

/-- Modelled from the spec: `Enqueue(item)` of a Handle (section 4.2; `userq` is
missing from the source).  Appends to the current local buffer, acquired by `get` on
first use; when the fill count reaches the capacity the buffer is published by `put`
and a replacement is acquired by `get`. -/
def userq.Enqueue {α : Type} (u : userq α) (b : batch α) (x : α) : userq α × batch α :=
  let cur : queue α × batch α :=
    match u.q with
    | some q => (q, b)
    | none => b.get
  let q1 := cur.1.enqueue x
  if q1.full then
    let r := (cur.2.put q1).get
    ({ u with q := some r.1 }, r.2)
  else
    ({ u with q := some q1 }, cur.2)

/-- Modelled from the spec: `Flush()` of a Handle (section 4.2): a non-empty current
local buffer is published by `put` and a fresh one is acquired by `get`. -/
def userq.Flush {α : Type} (u : userq α) (b : batch α) : userq α × batch α :=
  match u.q with
  | none => (u, b)
  | some q =>
    match q.items with
    | [] => (u, b)
    | _ :: _ =>
      let r := (b.put q).get
      ({ u with q := some r.1 }, r.2)

/-- What a call of `Dequeue` comes to: it returned `(item, ok)`, with `none` for
`ok = false`, or the goroutine is blocked inside `wait`. -/
inductive DequeueOutcome (α : Type) where
  | returned (v : Option α) (u : userq α) (b : batch α)
  | blocked (u : userq α) (b : batch α)
deriving DecidableEq, Repr

/-- Modelled from the spec: `Dequeue()` of a Handle (section 4.3).  With a current
local buffer that still has items it removes and returns the next one.  Otherwise an
exhausted buffer is recycled by `free`, then `wait` fetches the next buffer, which
blocks while the working queue is empty, and the next item of that buffer is removed
and returned.  `env` is the environment of the `wait` call. -/
def userq.Dequeue {α : Type} (env : List (List (queue α))) (u : userq α) (b : batch α) :
    DequeueOutcome α :=
  let fetch (b0 : batch α) : DequeueOutcome α :=
    match b0.wait env with
    | WaitOutcome.parked b1 => DequeueOutcome.blocked { u with q := none } b1
    | WaitOutcome.returned q b1 =>
      match q.dequeue with
      | some (x, q1) => DequeueOutcome.returned (some x) { u with q := some q1 } b1
      | none => DequeueOutcome.returned none { u with q := some q } b1
  match u.q with
  | none => fetch b
  | some q =>
    match q.dequeue with
    | some (x, q1) => DequeueOutcome.returned (some x) { u with q := some q1 } b
    | none => fetch (b.free q)

/-- A sequence of `Enqueue` calls on one Handle, first item first. -/
def userq.EnqueueAll {α : Type} (u : userq α) (b : batch α) (xs : List α) :
    userq α × batch α :=
  xs.foldl (fun s x => s.1.Enqueue s.2 x) (u, b)

/-- A sequence of `n` calls of `Dequeue` on one Handle while no other goroutine
publishes: the items returned, in call order, and the final Handle and Hub; `none`
when one of the calls blocks. -/
def userq.DequeueN {α : Type} : Nat → userq α → batch α →
    Option (List (Option α) × userq α × batch α)
  | 0, u, b => some ([], u, b)
  | n + 1, u, b =>
    match u.Dequeue [] b with
    | DequeueOutcome.blocked _ _ => none
    | DequeueOutcome.returned v u1 b1 =>
      match userq.DequeueN n u1 b1 with
      | none => none
      | some (vs, r) => some (v :: vs, r)

/-! ## The batching scenario: capacity 3, items 1 to 5 -/

/-- The call of `GetQueue` that gives the producer its Handle, on a fresh Hub of
capacity 3 with no Handle allocated yet. -/
def Scenario.producer : GetQueueOutcome Nat :=
  (NewBatch 3 : batch Nat).GetQueue 0 []

/-- The producer Handle and the Hub after `Enqueue` of 1, 2, 3, 4, 5 on a fresh Hub of
capacity 3. -/
def Scenario.enqueued : userq Nat × batch Nat :=
  Scenario.producer.handle.EnqueueAll Scenario.producer.hub [1, 2, 3, 4, 5]

/-- The producer Handle and the Hub after the `Flush` that follows. -/
def Scenario.flushed : userq Nat × batch Nat :=
  Scenario.enqueued.1.Flush Scenario.enqueued.2

/-- The consumer Handle, obtained by a second call of `GetQueue` after the producer is
done, and the Hub as that call leaves it. -/
def Scenario.consumer : userq Nat × batch Nat :=
  ((Scenario.flushed.2.GetQueue 0 Scenario.producer.mem).handle,
   (Scenario.flushed.2.GetQueue 0 Scenario.producer.mem).hub)

/-- The consumer Handle and the Hub after the five items have been dequeued: the
Handle holds the drained second buffer, the first one is back on the free list. -/
def Scenario.drained : userq Nat × batch Nat :=
  ({ b := 0, q := some { items := [], capacity := 3 } },
   { freelist := { elems := [{ items := [], capacity := 3 }] }
     workingq := { elems := [] }
     wcond := { signals := 1 }
     capacity := 3 })

/-! ## Programs on one Hub

The Hub methods `get`, `free`, `put` and `wait` are unexported methods of the
unexported type `batch`: the calls they receive are the ones the Handle methods make.
A program is a sequence of calls of `GetQueue` and of the Handle methods, by any
number of Handles.  A local buffer has one owner at a time, a Handle, the working
queue or the free list, and changes owner by handoff: a Handle method that passes its
buffer to `put` or `free` no longer holds it. -/

/-- The state a program works on: the Hub and the memory of its Handles. -/
structure World (α : Type) where
  hub : batch α
  mem : List (userq α)
deriving DecidableEq, Repr

/-- One call of the exported interface: `GetQueue` on the Hub, or a method of the
Handle at the pointer `p`. -/
inductive Op (α : Type) where
  | getQueue
  | enqueue (p : Nat) (x : α)
  | flush (p : Nat)
  | dequeue (p : Nat)
deriving DecidableEq, Repr

/-- The state one call leaves behind.  A method call through a pointer at which no
Handle has been allocated does not take place.  A `Dequeue` that finds the working
queue empty leaves its goroutine parked in `wait`; the retry of that `wait` is a later
`dequeue` step of the same Handle, after other Handles have published. -/
def World.step {α : Type} (self : Nat) (w : World α) : Op α → World α
  | Op.getQueue =>
    { hub := (w.hub.GetQueue self w.mem).hub, mem := (w.hub.GetQueue self w.mem).mem }
  | Op.enqueue p x =>
    match w.mem[p]? with
    | none => w
    | some u => { hub := (u.Enqueue w.hub x).2, mem := w.mem.set p (u.Enqueue w.hub x).1 }
  | Op.flush p =>
    match w.mem[p]? with
    | none => w
    | some u => { hub := (u.Flush w.hub).2, mem := w.mem.set p (u.Flush w.hub).1 }
  | Op.dequeue p =>
    match w.mem[p]? with
    | none => w
    | some u =>
      match u.Dequeue [] w.hub with
      | DequeueOutcome.returned _ u1 b1 => { hub := b1, mem := w.mem.set p u1 }
      | DequeueOutcome.blocked u1 b1 => { hub := b1, mem := w.mem.set p u1 }

/-- The state after a program, first call first. -/
def World.run {α : Type} (self : Nat) (w : World α) (ops : List (Op α)) : World α :=
  ops.foldl (World.step self) w

/-- The program starts with a Hub made by `NewBatch(C)` and no Handle. -/
def World.init {α : Type} (C : Int) : World α :=
  { hub := NewBatch C, mem := [] }

/-- The pool invariant of a Hub of capacity `C`: every buffer on the free list is empty
and of capacity `C`, and every buffer in the working queue is of capacity `C`. -/
def PoolOk {α : Type} (C : Int) (b : batch α) : Prop :=
  b.capacity = C
    ∧ (∀ q ∈ b.freelist.elems, q.items = [] ∧ q.capacity = C)
    ∧ (∀ q ∈ b.workingq.elems, q.capacity = C)

/-- The buffer a Handle owns, when it owns one, is of capacity `C`. -/
def HandleOk {α : Type} (C : Int) (u : userq α) : Prop :=
  ∀ q, u.q = some q → q.capacity = C

/-- The invariant of a program state: the pool invariant and every Handle's buffer of
capacity `C`. -/
def WorldOk {α : Type} (C : Int) (w : World α) : Prop :=
  PoolOk C w.hub ∧ ∀ u ∈ w.mem, HandleOk C u

/-- A program with a producer Handle at 0 and a consumer Handle at 1 on a Hub of
capacity 1: the producer enqueues 7, which publishes the full buffer; the consumer
dequeues it, and its next `Dequeue` recycles the drained buffer and parks. -/
def Scenario.recycling : List (Op Nat) :=
  [Op.getQueue, Op.getQueue, Op.enqueue 0 7, Op.dequeue 1, Op.dequeue 1]

/-! ## Interleavings of `put` and `wait`

Goroutines running `put` and `wait` on one Hub, one atomic step at a time.  A step is
atomic where the code runs under the working queue's mutex or inside one call of a
primitive. -/

/-- Where a consumer goroutine stands in `wait` (batch.go lines 99-112). -/
inductive CPc where
  /-- Outside `wait`: not yet called, or returned. -/
  | idle
  /-- Holds the mutex, at the top of the loop (line 102). -/
  | running
  /-- Inside `wcond.Wait()` (line 104): mutex released, waiting for a signal. -/
  | parked
  /-- Inside `wcond.Wait()`: signalled, about to take the mutex again. -/
  | woken
deriving DecidableEq, Repr

/-- Where a producer goroutine stands in `put` (batch.go lines 90-95). -/
inductive PPc where
  /-- Outside `put`, or `Enqueue1` returned a length other than 1. -/
  | idle
  /-- The call of `Enqueue1` returned 1: about to call `wcond.Signal()` (line 93). -/
  | signalling
deriving DecidableEq, Repr

/-- The Hub together with the goroutines working on it. -/
structure Sys (α : Type) where
  hub : batch α
  /-- Whether `workingq.Mutex` is held. -/
  mutex : Bool
  consumers : List CPc
  producers : List PPc
deriving DecidableEq, Repr

/-- The atomic steps. -/
inductive Event (α : Type) where
  /-- Consumer `c` takes the mutex: entering `wait` (line 100) or woken inside
  `wcond.Wait()`. -/
  | lock (c : Nat)
  /-- Consumer `c`, holding the mutex, runs `Dequeue0` (line 102) and either unlocks
  and returns (lines 108-110) or parks in `wcond.Wait()` (line 104), which releases
  the mutex. -/
  | attempt (c : Nat)
  /-- Producer `p` runs `n := b.workingq.Enqueue1(q)` (line 91). -/
  | enqueue (p : Nat) (q : queue α)
  /-- Producer `p` runs `b.wcond.Signal()` (line 93), which wakes the parked consumer
  `w`, or nobody when no consumer is parked. -/
  | signal (p : Nat) (w : Option Nat)
deriving DecidableEq, Repr

/-- One atomic step; `none` when the step cannot be taken in this state. -/
def Sys.step {α : Type} (s : Sys α) : Event α → Option (Sys α)
  | Event.lock c =>
    if s.mutex = false ∧ (s.consumers[c]? = some CPc.idle ∨ s.consumers[c]? = some CPc.woken) then
      some { s with mutex := true, consumers := s.consumers.set c CPc.running }
    else none
  | Event.attempt c =>
    if s.consumers[c]? = some CPc.running then
      match s.hub.workingq.Dequeue0 with
      | some (_, wq) =>
        some { s with hub := { s.hub with workingq := wq }, mutex := false,
                      consumers := s.consumers.set c CPc.idle }
      | none =>
        some { s with mutex := false, consumers := s.consumers.set c CPc.parked }
    else none
  | Event.enqueue p q =>
    if s.mutex = false ∧ s.producers[p]? = some PPc.idle then
      let r := s.hub.workingq.Enqueue1 q
      some { s with hub := { s.hub with workingq := r.1 },
                    producers := s.producers.set p (if r.2 = 1 then PPc.signalling else PPc.idle) }
    else none
  | Event.signal p w =>
    if s.producers[p]? = some PPc.signalling then
      match w with
      | some c =>
        if s.consumers[c]? = some CPc.parked then
          some { s with hub := { s.hub with wcond := s.hub.wcond.Signal },
                        consumers := s.consumers.set c CPc.woken,
                        producers := s.producers.set p PPc.idle }
        else none
      | none =>
        if CPc.parked ∈ s.consumers then none
        else
          some { s with hub := { s.hub with wcond := s.hub.wcond.Signal },
                        producers := s.producers.set p PPc.idle }
    else none

/-- A schedule of atomic steps, first step first; `none` when one cannot be taken. -/
def Sys.exec {α : Type} : Sys α → List (Event α) → Option (Sys α)
  | s, [] => some s
  | s, e :: es =>
    match s.step e with
    | none => none
    | some s1 => Sys.exec s1 es

/-- A Hub made by `NewBatch` with `nc` consumer and `np` producer goroutines, all of
them outside `put` and `wait`. -/
def Sys.init {α : Type} (capacity : Int) (nc np : Nat) : Sys α :=
  { hub := NewBatch capacity
    mutex := false
    consumers := List.replicate nc CPc.idle
    producers := List.replicate np PPc.idle }

/-- A wake-up is pending: a consumer has been signalled and not yet run, or a producer
is about to signal. -/
def Sys.wakeupPending {α : Type} (s : Sys α) : Prop :=
  CPc.woken ∈ s.consumers ∨ PPc.signalling ∈ s.producers

/-- A consumer is parked inside `wait` while the working queue holds a local buffer
and no wake-up is pending. -/
def Sys.lostWakeup {α : Type} (s : Sys α) : Prop :=
  CPc.parked ∈ s.consumers ∧ s.hub.workingq.elems ≠ [] ∧ ¬ s.wakeupPending

instance Sys.decidableWakeupPending {α : Type} (s : Sys α) : Decidable s.wakeupPending := by
  unfold Sys.wakeupPending
  exact inferInstance

instance Sys.decidableLostWakeup {α : Type} [DecidableEq α] (s : Sys α) :
    Decidable s.lostWakeup := by
  unfold Sys.lostWakeup
  exact inferInstance

/-- The invariant the rule of `put` maintains for any number of goroutines: there is
a consumer, and whenever the working queue holds a buffer some producer is about to
signal or some consumer is not parked. -/
def Sys.Served {α : Type} (s : Sys α) : Prop :=
  s.consumers ≠ [] ∧
    (s.hub.workingq.elems ≠ [] →
      PPc.signalling ∈ s.producers ∨ ∃ c ∈ s.consumers, c ≠ CPc.parked)

/-- A schedule of one consumer and one producer on a fresh Hub: the consumer calls
`wait` and parks on the empty working queue, then the producer runs `Enqueue1` of a
first buffer and is about to signal. -/
def Schedule.oneConsumer : List (Event Nat) :=
  [ Event.lock 0, Event.attempt 0, Event.enqueue 0 { items := [1], capacity := 3 } ]

/-- The state the schedule `Schedule.oneConsumer` ends in. -/
def Schedule.oneConsumerEnd : Sys Nat :=
  { hub := { freelist := { elems := [] }
             workingq := { elems := [{ items := [1], capacity := 3 }] }
             wcond := { signals := 0 }
             capacity := 3 }
    mutex := false
    consumers := [CPc.parked]
    producers := [PPc.signalling] }

/-- A schedule of two consumers and one producer on a fresh Hub: both consumers call
`wait` and park on the empty working queue; the producer runs `put` of a first buffer,
whose length 1 makes it signal, waking consumer 0; the producer runs `put` of a second
buffer, whose length 2 makes it skip the signal; consumer 0 takes the mutex again,
removes the first buffer and returns. -/
def Schedule.twoConsumers : List (Event Nat) :=
  [ Event.lock 0, Event.attempt 0,
    Event.lock 1, Event.attempt 1,
    Event.enqueue 0 { items := [1], capacity := 3 }, Event.signal 0 (some 0),
    Event.enqueue 0 { items := [2], capacity := 3 },
    Event.lock 0, Event.attempt 0 ]

/-- The state the schedule `Schedule.twoConsumers` ends in: the second buffer is in
the working queue, consumer 1 is parked, nobody holds the mutex and nobody is about
to signal. -/
def Schedule.twoConsumersEnd : Sys Nat :=
  { hub := { freelist := { elems := [] }
             workingq := { elems := [{ items := [2], capacity := 3 }] }
             wcond := { signals := 1 }
             capacity := 3 }
    mutex := false
    consumers := [CPc.idle, CPc.parked]
    producers := [PPc.idle] }

/-! ## Properties of the Hub methods -/

section HubLemmas

variable {α : Type}

theorem put_workingq (b : batch α) (q : queue α) :
    (b.put q).workingq.elems = b.workingq.elems ++ [q] := by
  simp only [batch.put, hqu.Queue.Enqueue1]
  split <;> rfl

theorem put_freelist (b : batch α) (q : queue α) : (b.put q).freelist = b.freelist := by
  simp only [batch.put]
  split <;> rfl

theorem put_capacity (b : batch α) (q : queue α) : (b.put q).capacity = b.capacity := by
  simp only [batch.put]
  split <;> rfl

theorem foldl_put_workingq (qs : List (queue α)) (b : batch α) :
    (qs.foldl batch.put b).workingq.elems = b.workingq.elems ++ qs := by
  induction qs generalizing b with
  | nil => simp
  | cons q qs ih => simp [List.foldl_cons, ih, put_workingq]

theorem foldl_put_freelist (qs : List (queue α)) (b : batch α) :
    (qs.foldl batch.put b).freelist = b.freelist := by
  induction qs generalizing b with
  | nil => rfl
  | cons q qs ih => simp [List.foldl_cons, ih, put_freelist]

theorem foldl_put_capacity (qs : List (queue α)) (b : batch α) :
    (qs.foldl batch.put b).capacity = b.capacity := by
  induction qs generalizing b with
  | nil => rfl
  | cons q qs ih => simp [List.foldl_cons, ih, put_capacity]

theorem wait_of_cons (env : List (List (queue α))) (b : batch α) (x : queue α)
    (rest : List (queue α)) (h : b.workingq.elems = x :: rest) :
    b.wait env = WaitOutcome.returned x { b with workingq := { elems := rest } } := by
  have hd : b.workingq.Dequeue0 = some (x, { elems := rest }) := by
    simp [hqu.Queue.Dequeue0, h]
  cases env <;> simp [batch.wait, hd]

theorem dequeue0_of_nil (b : batch α) (h : b.workingq.elems = []) :
    b.workingq.Dequeue0 = none := by
  simp [hqu.Queue.Dequeue0, h]

theorem wait_nil_of_nil (b : batch α) (h : b.workingq.elems = []) :
    b.wait [] = WaitOutcome.parked b := by
  simp [batch.wait, dequeue0_of_nil b h]

theorem wait_cons_of_nil (puts : List (queue α)) (rest : List (List (queue α)))
    (b : batch α) (h : b.workingq.elems = []) :
    b.wait (puts :: rest) = batch.wait rest (puts.foldl batch.put b) := by
  simp [batch.wait, dequeue0_of_nil b h]

theorem waits_drain (qs : List (queue α)) (envs : List (List (List (queue α))))
    (s : batch α) (hs : s.workingq.elems = qs) (hn : envs.length = qs.length) :
    s.waits envs = some (qs, { s with workingq := { elems := [] } }) := by
  induction qs generalizing s envs with
  | nil =>
    cases envs with
    | nil =>
      cases s with
      | mk fl wq wc cap =>
        cases wq with
        | mk el =>
          simp only at hs
          subst hs
          rfl
    | cons e es => simp at hn
  | cons q qs ih =>
    cases envs with
    | nil => simp at hn
    | cons e es =>
      have hlen : es.length = qs.length := by simpa using hn
      unfold batch.waits
      rw [wait_of_cons e s q qs hs]
      simp only
      rw [ih es { s with workingq := { elems := qs } } rfl hlen]

theorem wait_source (env : List (List (queue α))) (b b1 : batch α) (q : queue α)
    (h : b.wait env = WaitOutcome.returned q b1) :
    q ∈ b.workingq.elems ∨ ∃ r ∈ env, q ∈ r := by
  induction env generalizing b with
  | nil =>
    cases hq : b.workingq.elems with
    | nil => rw [wait_nil_of_nil b hq] at h; cases h
    | cons x rest =>
      rw [wait_of_cons [] b x rest hq] at h
      injection h with h1 _
      left; simp [h1]
  | cons puts rest ih =>
    cases hq : b.workingq.elems with
    | nil =>
      rw [wait_cons_of_nil puts rest b hq] at h
      rcases ih (puts.foldl batch.put b) h with h1 | ⟨r, hr, hqr⟩
      · rw [foldl_put_workingq, hq] at h1
        right; exact ⟨puts, by simp, by simpa using h1⟩
      · right; exact ⟨r, by simp [hr], hqr⟩
    | cons x xs =>
      rw [wait_of_cons (puts :: rest) b x xs hq] at h
      injection h with h1 _
      left; simp [h1]

theorem wait_idle_rounds (k : Nat) (env : List (List (queue α))) (b : batch α)
    (h : b.workingq.elems = []) :
    b.wait (List.replicate k [] ++ env) = b.wait env := by
  induction k with
  | zero => simp
  | succ k ih =>
    rw [List.replicate_succ, List.cons_append, wait_cons_of_nil [] _ b h]
    simpa using ih

/-- C1: the working queue hands buffers over in FIFO order.  On a Hub whose working
queue is empty, `put(b1), ..., put(bn)` followed by `n` calls of `wait` returns
`b1, ..., bn` in exactly that order, none of the calls parks, and the working queue is
empty afterwards; free list and capacity are untouched. -/
theorem C1_working_queue_fifo (b : batch α) (qs : List (queue α))
    (envs : List (List (List (queue α))))
    (hb : b.workingq.elems = []) (hn : envs.length = qs.length) :
    (b.puts qs).waits envs
        = some (qs, { b.puts qs with workingq := { elems := [] } })
      ∧ (b.puts qs).freelist = b.freelist
      ∧ (b.puts qs).capacity = b.capacity := by
  refine ⟨?_, foldl_put_freelist qs b, foldl_put_capacity qs b⟩
  apply waits_drain qs envs (b.puts qs) _ hn
  simp [batch.puts, foldl_put_workingq, hb]

/-- C2: `put(buf)` appends `buf` to the working queue: every earlier buffer keeps its
position and the length grows by exactly one.  It signals the condition variable if
and only if the length right after the insertion is 1, which is if and only if the
working queue was empty before the call; otherwise the condition variable is left
alone.  Free list and capacity are untouched. -/
theorem C2_put_appends_and_signals (b : batch α) (q : queue α) :
    (b.put q).workingq.elems = b.workingq.elems ++ [q]
      ∧ (∀ i, i < b.workingq.elems.length →
          (b.put q).workingq.elems[i]? = b.workingq.elems[i]?)
      ∧ (b.put q).workingq.elems.length = b.workingq.elems.length + 1
      ∧ ((b.put q).wcond = b.wcond.Signal ↔ (b.put q).workingq.elems.length = 1)
      ∧ ((b.put q).workingq.elems.length = 1 ↔ b.workingq.elems = [])
      ∧ ((b.put q).workingq.elems.length ≠ 1 → (b.put q).wcond = b.wcond)
      ∧ (b.put q).freelist = b.freelist
      ∧ (b.put q).capacity = b.capacity := by
  refine ⟨put_workingq b q, ?_, ?_, ?_, ?_, ?_, put_freelist b q, put_capacity b q⟩
  · intro i hi
    rw [put_workingq, List.getElem?_append_left hi]
  · simp [put_workingq]
  · rw [put_workingq]
    simp only [batch.put, hqu.Queue.Enqueue1]
    split
    · rename_i h; simp [h]
    · rename_i h
      simp only [h, iff_false]
      intro hc
      have := congrArg sync.Cond.signals hc
      simp [sync.Cond.Signal] at this
  · rw [put_workingq]
    cases b.workingq.elems <;> simp
  · simp only [batch.put, hqu.Queue.Enqueue1]
    split
    · rename_i h; intro hc; exact absurd h hc
    · intro _; rfl

/-- C3: `wait` returns only a buffer that was in the working queue.  With a non-empty
working queue it returns the head and removes exactly that buffer, the rest keeping
its order.  With an empty working queue it stays parked however often it is woken
while nothing is published, and once other goroutines have `put` buffers it returns
the first of them.  Every buffer it returns was in the working queue at the call or
was `put` while the goroutine was parked. -/
theorem C3_wait_returns_head_or_parks (b : batch α) :
    (∀ env x rest, b.workingq.elems = x :: rest →
        b.wait env = WaitOutcome.returned x { b with workingq := { elems := rest } })
      ∧ (b.workingq.elems = [] → ∀ k, b.wait (List.replicate k []) = WaitOutcome.parked b)
      ∧ (b.workingq.elems = [] → ∀ k p ps env,
          b.wait (List.replicate k [] ++ (p :: ps) :: env)
            = WaitOutcome.returned p
                { b.puts (p :: ps) with workingq := { elems := ps } })
      ∧ (∀ env q b1, b.wait env = WaitOutcome.returned q b1 →
          q ∈ b.workingq.elems ∨ ∃ r ∈ env, q ∈ r) := by
  refine ⟨fun env x rest h => wait_of_cons env b x rest h, ?_, ?_,
    fun env q b1 h => wait_source env b b1 q h⟩
  · intro h k
    have := wait_idle_rounds k [] b h
    rw [List.append_nil] at this
    rw [this, wait_nil_of_nil b h]
  · intro h k p ps env
    rw [wait_idle_rounds k _ b h, wait_cons_of_nil _ _ b h]
    apply wait_of_cons
    simp [batch.puts, foldl_put_workingq, put_workingq, h]

/-- C4: `get` always returns a buffer.  With a non-empty free list it returns the
buffer on top and removes exactly that buffer; with an empty free list it returns
`newQueue(b.capacity)`, a new empty buffer of the Hub's capacity, and the free list
stays empty.  The working queue, the condition variable and the capacity are unchanged
in both cases. -/
theorem C4_get_pops_or_allocates (b : batch α) :
    (∀ q rest, b.freelist.elems = q :: rest →
        b.get = (q, { b with freelist := { elems := rest } }))
      ∧ (b.freelist.elems = [] →
          b.get = (newQueue b.capacity, b) ∧ b.get.1.items = []
            ∧ b.get.1.capacity = b.capacity ∧ b.get.2.freelist.elems = [])
      ∧ b.get.2.workingq = b.workingq
      ∧ b.get.2.wcond = b.wcond
      ∧ b.get.2.capacity = b.capacity := by
  cases hfl : b.freelist.elems with
  | nil =>
    have hg : b.get = (newQueue b.capacity, b) := by
      simp [batch.get, hqu.Stack.Pop, hfl]
    simp [hg, newQueue, hfl]
  | cons x xs =>
    have hg : b.get = (x, { b with freelist := { elems := xs } }) := by
      simp [batch.get, hqu.Stack.Pop, hfl]
    simp [hg]

/-- C5: recycling round trip.  For a drained buffer `q`, `free(q)` followed by `get()`
returns that same buffer `q`, still empty, and the Hub, its free list included, is
exactly as it was before `free(q)`. -/
theorem C5_free_then_get (b : batch α) (q : queue α) (hq : q.items = []) :
    (b.free q).get = (q, b)
      ∧ (b.free q).get.1.items = []
      ∧ (b.free q).get.2.freelist = b.freelist := by
  have hg : (b.free q).get = (q, b) := by
    simp [batch.free, batch.get, hqu.Stack.Push, hqu.Stack.Pop]
  simp [hg, hq]

theorem wait_parks_without_puts (k : Nat) (b : batch α) (h : b.workingq.elems = []) :
    b.wait (List.replicate k []) = WaitOutcome.parked b := by
  have := wait_idle_rounds k [] b h
  rw [List.append_nil] at this
  rw [this, wait_nil_of_nil b h]

theorem poolOk_get (C : Int) (b : batch α) (hb : PoolOk C b) :
    (b.get.1.items = [] ∧ b.get.1.capacity = C) ∧ PoolOk C b.get.2 := by
  obtain ⟨hcap, hfl, hwq⟩ := hb
  cases hel : b.freelist.elems with
  | nil =>
    have hg : b.get = (newQueue b.capacity, b) := by
      simp [batch.get, hqu.Stack.Pop, hel]
    rw [hg]
    exact ⟨⟨rfl, hcap⟩, hcap, hfl, hwq⟩
  | cons x xs =>
    have hg : b.get = (x, { b with freelist := { elems := xs } }) := by
      simp [batch.get, hqu.Stack.Pop, hel]
    rw [hg]
    refine ⟨hfl x (by simp [hel]), hcap, fun q hq => hfl q ?_, hwq⟩
    rw [hel]
    exact List.mem_cons_of_mem x hq

theorem poolOk_put (C : Int) (b : batch α) (q : queue α) (hb : PoolOk C b)
    (hq : q.capacity = C) : PoolOk C (b.put q) := by
  obtain ⟨hcap, hfl, hwq⟩ := hb
  refine ⟨by rw [put_capacity]; exact hcap, by rw [put_freelist]; exact hfl, ?_⟩
  intro r hr
  rw [put_workingq] at hr
  rcases List.mem_append.1 hr with h | h
  · exact hwq r h
  · rw [List.mem_singleton.1 h]
    exact hq

theorem poolOk_free (C : Int) (b : batch α) (q : queue α) (hb : PoolOk C b)
    (hi : q.items = []) (hq : q.capacity = C) : PoolOk C (b.free q) := by
  obtain ⟨hcap, hfl, hwq⟩ := hb
  refine ⟨hcap, fun r hr => ?_, hwq⟩
  simp only [batch.free, hqu.Stack.Push, List.mem_cons] at hr
  rcases hr with rfl | hr
  · exact ⟨hi, hq⟩
  · exact hfl r hr

theorem poolOk_wait (C : Int) (b : batch α) (hb : PoolOk C b) :
    (∀ q b1, b.wait [] = WaitOutcome.returned q b1 → q.capacity = C ∧ PoolOk C b1)
      ∧ (∀ b1, b.wait [] = WaitOutcome.parked b1 → PoolOk C b1) := by
  obtain ⟨hcap, hfl, hwq⟩ := hb
  cases hq : b.workingq.elems with
  | nil =>
    rw [wait_nil_of_nil b hq]
    refine ⟨fun q b1 h => (by cases h), fun b1 h => ?_⟩
    injection h with h
    subst h
    exact ⟨hcap, hfl, hwq⟩
  | cons x xs =>
    rw [wait_of_cons [] b x xs hq]
    refine ⟨fun q b1 h => ?_, fun b1 h => (by cases h)⟩
    injection h with h1 h2
    subst h1 h2
    refine ⟨hwq x (by simp [hq]), hcap, hfl, fun r hr => hwq r ?_⟩
    rw [hq]
    exact List.mem_cons_of_mem x hr

theorem enqueue_ok (C : Int) (u : userq α) (b : batch α) (x : α) (hb : PoolOk C b)
    (hu : HandleOk C u) :
    PoolOk C (u.Enqueue b x).2 ∧ HandleOk C (u.Enqueue b x).1 := by
  have hcur : ∀ cur : queue α × batch α, cur.1.capacity = C → PoolOk C cur.2 →
      PoolOk C
          (if (cur.1.enqueue x).full then
            (({ u with q := some ((cur.2.put (cur.1.enqueue x)).get).1 } : userq α),
              ((cur.2.put (cur.1.enqueue x)).get).2)
          else (({ u with q := some (cur.1.enqueue x) } : userq α), cur.2)).2
        ∧ HandleOk C
          (if (cur.1.enqueue x).full then
            (({ u with q := some ((cur.2.put (cur.1.enqueue x)).get).1 } : userq α),
              ((cur.2.put (cur.1.enqueue x)).get).2)
          else (({ u with q := some (cur.1.enqueue x) } : userq α), cur.2)).1 := by
    intro cur hc hp
    have hq1 : (cur.1.enqueue x).capacity = C := hc
    split
    · obtain ⟨⟨_, h1⟩, h2⟩ := poolOk_get C _ (poolOk_put C cur.2 _ hp hq1)
      refine ⟨h2, fun q hq => ?_⟩
      simp only [Option.some.injEq] at hq
      rw [← hq]
      exact h1
    · refine ⟨hp, fun q hq => ?_⟩
      simp only [Option.some.injEq] at hq
      rw [← hq]
      exact hq1
  cases huq : u.q with
  | none =>
    obtain ⟨⟨_, h1⟩, h2⟩ := poolOk_get C b hb
    have := hcur b.get h1 h2
    simpa [userq.Enqueue, huq] using this
  | some q =>
    have := hcur (q, b) (hu q huq) hb
    simpa [userq.Enqueue, huq] using this

theorem flush_ok (C : Int) (u : userq α) (b : batch α) (hb : PoolOk C b)
    (hu : HandleOk C u) :
    PoolOk C (u.Flush b).2 ∧ HandleOk C (u.Flush b).1 := by
  cases huq : u.q with
  | none => simpa [userq.Flush, huq] using And.intro hb hu
  | some q =>
    cases hi : q.items with
    | nil => simpa [userq.Flush, huq, hi] using And.intro hb hu
    | cons y ys =>
      obtain ⟨⟨_, h1⟩, h2⟩ := poolOk_get C _ (poolOk_put C b q hb (hu q huq))
      have hres : u.Flush b = ({ u with q := some ((b.put q).get).1 }, ((b.put q).get).2) := by
        simp [userq.Flush, huq, hi]
      rw [hres]
      refine ⟨h2, fun r hr => ?_⟩
      simp only [Option.some.injEq] at hr
      rw [← hr]
      exact h1

theorem fetch_ok (C : Int) (u : userq α) (b : batch α) (hb : PoolOk C b) :
    (∀ v u1 b1,
        (match b.wait [] with
          | WaitOutcome.parked b1 => DequeueOutcome.blocked { u with q := none } b1
          | WaitOutcome.returned q b1 =>
            match q.dequeue with
            | some (x, q1) => DequeueOutcome.returned (some x) { u with q := some q1 } b1
            | none => DequeueOutcome.returned none { u with q := some q } b1)
          = DequeueOutcome.returned v u1 b1 → PoolOk C b1 ∧ HandleOk C u1)
      ∧ (∀ u1 b1,
        (match b.wait [] with
          | WaitOutcome.parked b1 => DequeueOutcome.blocked { u with q := none } b1
          | WaitOutcome.returned q b1 =>
            match q.dequeue with
            | some (x, q1) => DequeueOutcome.returned (some x) { u with q := some q1 } b1
            | none => DequeueOutcome.returned none { u with q := some q } b1)
          = DequeueOutcome.blocked u1 b1 → PoolOk C b1 ∧ HandleOk C u1) := by
  obtain ⟨hret, hpark⟩ := poolOk_wait C b hb
  cases hw : b.wait [] with
  | parked b2 =>
    refine ⟨fun v u1 b1 h => (by cases h), fun u1 b1 h => ?_⟩
    simp only at h
    injection h with h1 h2
    subst h1 h2
    exact ⟨hpark b2 hw, fun q hq => (by cases hq)⟩
  | returned q b2 =>
    obtain ⟨hqc, hb2⟩ := hret q b2 hw
    refine ⟨fun v u1 b1 h => ?_, fun u1 b1 h => ?_⟩
    · simp only at h
      cases hd : q.dequeue with
      | none =>
        rw [hd] at h
        injection h with _ h1 h2
        subst h1 h2
        refine ⟨hb2, fun r hr => ?_⟩
        simp only [Option.some.injEq] at hr
        rw [← hr]
        exact hqc
      | some r =>
        obtain ⟨y, q1⟩ := r
        rw [hd] at h
        injection h with _ h1 h2
        subst h1 h2
        refine ⟨hb2, fun r hr => ?_⟩
        simp only [Option.some.injEq] at hr
        rw [← hr]
        have hq1 : q1.capacity = q.capacity := by
          unfold queue.dequeue at hd
          cases hi : q.items with
          | nil => rw [hi] at hd; cases hd
          | cons z zs =>
            rw [hi] at hd
            injection hd with hd
            injection hd with _ hd
            rw [← hd]
        rw [hq1]
        exact hqc
    · simp only at h
      cases hd : q.dequeue with
      | none => rw [hd] at h; cases h
      | some r => rw [hd] at h; cases h

theorem dequeue_ok (C : Int) (u : userq α) (b : batch α) (hb : PoolOk C b)
    (hu : HandleOk C u) :
    (∀ v u1 b1, u.Dequeue [] b = DequeueOutcome.returned v u1 b1 →
        PoolOk C b1 ∧ HandleOk C u1)
      ∧ (∀ u1 b1, u.Dequeue [] b = DequeueOutcome.blocked u1 b1 →
        PoolOk C b1 ∧ HandleOk C u1) := by
  cases huq : u.q with
  | none =>
    have := fetch_ok C u b hb
    simpa [userq.Dequeue, huq] using this
  | some q =>
    cases hd : q.dequeue with
    | some r =>
      obtain ⟨y, q1⟩ := r
      have hq1 : q1.capacity = C := by
        have hqc := hu q huq
        unfold queue.dequeue at hd
        cases hi : q.items with
        | nil => rw [hi] at hd; cases hd
        | cons z zs =>
          rw [hi] at hd
          injection hd with hd
          injection hd with _ hd
          rw [← hd]
          exact hqc
      refine ⟨fun v u1 b1 h => ?_, fun u1 b1 h => ?_⟩
      · simp only [userq.Dequeue, huq, hd] at h
        injection h with _ h1 h2
        subst h1 h2
        refine ⟨hb, fun r hr => ?_⟩
        simp only [Option.some.injEq] at hr
        rw [← hr]
        exact hq1
      · simp only [userq.Dequeue, huq, hd] at h
        cases h
    | none =>
      have hi : q.items = [] := by
        unfold queue.dequeue at hd
        cases hi : q.items with
        | nil => rfl
        | cons z zs => rw [hi] at hd; cases hd
      have := fetch_ok C u (b.free q) (poolOk_free C b q hb hi (hu q huq))
      simpa [userq.Dequeue, huq, hd] using this

theorem handleOk_of_mem_set (C : Int) (mem : List (userq α)) (p : Nat) (u1 : userq α)
    (hm : ∀ u ∈ mem, HandleOk C u) (h1 : HandleOk C u1) :
    ∀ u ∈ mem.set p u1, HandleOk C u := by
  intro u hu
  rcases List.mem_or_eq_of_mem_set hu with h | h
  · exact hm u h
  · rw [h]
    exact h1

theorem worldOk_step (C : Int) (self : Nat) (w : World α) (op : Op α)
    (hw : WorldOk C w) : WorldOk C (w.step self op) := by
  obtain ⟨hb, hm⟩ := hw
  cases op with
  | getQueue =>
    refine ⟨hb, fun u hu => ?_⟩
    simp only [World.step, batch.GetQueue, List.mem_append, List.mem_singleton] at hu
    rcases hu with h | h
    · exact hm u h
    · rw [h]
      intro q hq
      cases hq
  | enqueue p x =>
    cases hp : w.mem[p]? with
    | none => simpa [World.step, hp] using And.intro hb hm
    | some u =>
      have hu : HandleOk C u := hm u (List.mem_iff_getElem?.2 ⟨p, hp⟩)
      obtain ⟨h1, h2⟩ := enqueue_ok C u w.hub x hb hu
      simp only [World.step, hp]
      exact ⟨h1, handleOk_of_mem_set C w.mem p _ hm h2⟩
  | flush p =>
    cases hp : w.mem[p]? with
    | none => simpa [World.step, hp] using And.intro hb hm
    | some u =>
      have hu : HandleOk C u := hm u (List.mem_iff_getElem?.2 ⟨p, hp⟩)
      obtain ⟨h1, h2⟩ := flush_ok C u w.hub hb hu
      simp only [World.step, hp]
      exact ⟨h1, handleOk_of_mem_set C w.mem p _ hm h2⟩
  | dequeue p =>
    cases hp : w.mem[p]? with
    | none => simpa [World.step, hp] using And.intro hb hm
    | some u =>
      have hu : HandleOk C u := hm u (List.mem_iff_getElem?.2 ⟨p, hp⟩)
      obtain ⟨hret, hblk⟩ := dequeue_ok C u w.hub hb hu
      simp only [World.step, hp]
      cases hd : u.Dequeue [] w.hub with
      | returned v u1 b1 =>
        obtain ⟨h1, h2⟩ := hret v u1 b1 hd
        exact ⟨h1, handleOk_of_mem_set C w.mem p _ hm h2⟩
      | blocked u1 b1 =>
        obtain ⟨h1, h2⟩ := hblk u1 b1 hd
        exact ⟨h1, handleOk_of_mem_set C w.mem p _ hm h2⟩

theorem worldOk_run (C : Int) (self : Nat) (ops : List (Op α)) (w : World α)
    (hw : WorldOk C w) : WorldOk C (w.run self ops) := by
  induction ops generalizing w with
  | nil => exact hw
  | cons op ops ih =>
    simp only [World.run, List.foldl_cons]
    exact ih _ (worldOk_step C self w op hw)

theorem get_after_put (b : batch α) (q : queue α) : (b.put q).get.1 = b.get.1 := by
  cases hel : b.freelist.elems with
  | nil => simp [batch.get, hqu.Stack.Pop, put_freelist, put_capacity, hel]
  | cons x xs => simp [batch.get, hqu.Stack.Pop, put_freelist, hel]

/-- C6: buffers obtained from the pool are always empty and of the configured
capacity.  The Hub methods are unexported and receive the calls the Handle methods
make; in every state a program of `GetQueue`, `Enqueue`, `Flush` and `Dequeue` calls,
by any number of Handles, reaches from `NewBatch(C)`, the buffer `get` returns is empty
and of capacity `C`.  This holds at each place a Handle method calls `get`: at the
start of `Enqueue` on first use, right after the `put` inside `Enqueue` and `Flush`,
and right after the `put` that follows the first-use `get` inside `Enqueue`. -/
theorem C6_pool_buffers_empty_of_capacity (C : Int) (self : Nat) (ops : List (Op α)) :
    (((World.init C : World α).run self ops).hub.get.1.items = []
        ∧ ((World.init C : World α).run self ops).hub.get.1.capacity = C)
      ∧ (∀ q : queue α,
          ((((World.init C : World α).run self ops).hub.put q).get).1.items = []
            ∧ ((((World.init C : World α).run self ops).hub.put q).get).1.capacity = C)
      ∧ ∀ q : queue α,
          ((((World.init C : World α).run self ops).hub.get.2.put q).get).1.items = []
            ∧ ((((World.init C : World α).run self ops).hub.get.2.put q).get).1.capacity
                = C := by
  have h0 : WorldOk C (World.init C : World α) := by
    refine ⟨⟨rfl, fun q hq => ?_, fun q hq => ?_⟩, fun u hu => ?_⟩
    · simp [World.init, NewBatch] at hq
    · simp [World.init, NewBatch] at hq
    · simp [World.init] at hu
  obtain ⟨hb, _⟩ := worldOk_run C self ops _ h0
  obtain ⟨h1, hb1⟩ := poolOk_get C _ hb
  obtain ⟨h2, _⟩ := poolOk_get C _ hb1
  refine ⟨h1, fun q => ?_, fun q => ?_⟩
  · rw [get_after_put]
    exact h1
  · rw [get_after_put]
    exact h2

/-- C9, as stated, fails: `NewBatch(0)` returns a Hub whose capacity is 0, not a
positive number. -/
theorem C9_counterexample_zero_capacity :
    (NewBatch 0 : batch Nat).capacity = 0 ∧ ¬ (0 < (NewBatch 0 : batch Nat).capacity) := by
  decide

/-- C9, amended: every Hub returned by `NewBatch(capacity)` has an empty free list, an
empty working queue, a condition variable nobody has signalled, and a stored capacity
equal to the argument; the stored capacity is positive exactly when the argument is. -/
theorem C9_NewBatch_state (capacity : Int) :
    (NewBatch capacity : batch α).freelist.elems = []
      ∧ (NewBatch capacity : batch α).workingq.elems = []
      ∧ (NewBatch capacity : batch α).wcond.signals = 0
      ∧ (NewBatch capacity : batch α).capacity = capacity
      ∧ (0 < (NewBatch capacity : batch α).capacity ↔ 0 < capacity) := by
  simp [NewBatch, sync.NewCond]

/-- C10: `GetQueue` leaves the Hub as it is: free list, working queue, condition
variable and capacity are unchanged.  The pointer it returns is fresh, no Handle was
there before, and the Handle now there refers to the receiver and owns no buffer; the
Handles allocated before are untouched.  A second call leaves the Hub unchanged again
and returns a different pointer: the two Handles are independent, a write to one of
them leaves the other as it is. -/
theorem C10_GetQueue_side_effect_free (self : Nat) (b : batch α) (mem : List (userq α)) :
    (b.GetQueue self mem).hub = b
      ∧ mem[(b.GetQueue self mem).ptr]? = none
      ∧ (b.GetQueue self mem).mem[(b.GetQueue self mem).ptr]?
          = some (b.GetQueue self mem).handle
      ∧ (b.GetQueue self mem).handle = { b := self, q := none }
      ∧ (∀ i, i < mem.length → (b.GetQueue self mem).mem[i]? = mem[i]?)
      ∧ ∀ r1 r2 : GetQueueOutcome α, r1 = b.GetQueue self mem →
          r2 = r1.hub.GetQueue self r1.mem →
          r2.hub = b
            ∧ r2.ptr ≠ r1.ptr
            ∧ r2.mem[r1.ptr]? = some { b := self, q := none }
            ∧ r2.mem[r2.ptr]? = some { b := self, q := none }
            ∧ ∀ u : userq α,
                (r2.mem.set r1.ptr u)[r2.ptr]? = some { b := self, q := none }
                  ∧ (r2.mem.set r1.ptr u)[r1.ptr]? = some u
                  ∧ (r2.mem.set r2.ptr u)[r1.ptr]? = some { b := self, q := none }
                  ∧ (r2.mem.set r2.ptr u)[r2.ptr]? = some u := by
  refine ⟨rfl, ?_, ?_, rfl, ?_, ?_⟩
  · simp [batch.GetQueue]
  · simp [batch.GetQueue]
  · intro i hi
    simp only [batch.GetQueue]
    rw [List.getElem?_append_left hi]
  · intro r1 r2 h1 h2
    subst h2
    subst h1
    have hne : mem.length + 1 ≠ mem.length := Nat.succ_ne_self _
    have hlen1 : mem.length < (mem ++ [({ b := self, q := none } : userq α)]
        ++ [({ b := self, q := none } : userq α)]).length := by
      simp
    have hlen2 : mem.length + 1 < (mem ++ [({ b := self, q := none } : userq α)]
        ++ [({ b := self, q := none } : userq α)]).length := by
      simp
    have hat1 : (mem ++ [({ b := self, q := none } : userq α)]
        ++ [({ b := self, q := none } : userq α)])[mem.length]?
          = some { b := self, q := none } := by
      rw [List.append_assoc, List.getElem?_append_right (Nat.le_refl _)]
      simp
    have hat2 : (mem ++ [({ b := self, q := none } : userq α)]
        ++ [({ b := self, q := none } : userq α)])[mem.length + 1]?
          = some { b := self, q := none } := by
      rw [List.append_assoc, List.getElem?_append_right (Nat.le_succ _)]
      simp
    simp only [batch.GetQueue, List.length_append, List.length_singleton]
    refine ⟨trivial, hne, hat1, hat2, fun u => ⟨?_, ?_, ?_, ?_⟩⟩
    · rw [List.getElem?_set_ne hne.symm]
      exact hat2
    · exact List.getElem?_set_self hlen1
    · rw [List.getElem?_set_ne hne]
      exact hat1
    · exact List.getElem?_set_self hlen2

end HubLemmas

/-- C8: the batching scenario.  On a Hub of capacity 3 a producer Handle that enqueues
1, 2, 3, 4, 5 has handed over the buffer [1,2,3] and holds [4,5]; after `Flush` the
working queue holds exactly [1,2,3] and then [4,5].  A consumer Handle calling
`Dequeue` five times gets 1, 2, 3, 4, 5 in that order, which empties the working
queue, and a sixth `Dequeue` stays blocked however often it is woken while nothing is
published. -/
theorem C8_batching_scenario :
    Scenario.enqueued.2.workingq.elems = [{ items := [1, 2, 3], capacity := 3 }]
      ∧ Scenario.enqueued.1.q = some { items := [4, 5], capacity := 3 }
      ∧ Scenario.flushed.2.workingq.elems
          = [{ items := [1, 2, 3], capacity := 3 }, { items := [4, 5], capacity := 3 }]
      ∧ Scenario.consumer.1.DequeueN 5 Scenario.consumer.2
          = some ([some 1, some 2, some 3, some 4, some 5], Scenario.drained)
      ∧ Scenario.drained.2.workingq.elems = []
      ∧ ∀ k, Scenario.drained.1.Dequeue (List.replicate k []) Scenario.drained.2
          = DequeueOutcome.blocked { b := 0, q := none }
              (Scenario.drained.2.free { items := [], capacity := 3 }) := by
  refine ⟨by decide, by decide, by decide, by decide, rfl, fun k => ?_⟩
  simp only [userq.Dequeue, queue.dequeue, Scenario.drained]
  rw [wait_parks_without_puts k _ rfl]

/-! ## Interleavings -/

/-- C7, as stated, fails with two consumers: the schedule `Schedule.twoConsumers` can be run from
a fresh Hub and ends with consumer 1 parked inside `wait` while the working queue
holds a buffer and no wake-up is pending. -/
theorem C7_lost_wakeup_with_two_consumers :
    (Sys.init 3 2 1 : Sys Nat).exec Schedule.twoConsumers = some Schedule.twoConsumersEnd
      ∧ Schedule.twoConsumersEnd.lostWakeup := by
  exact ⟨by decide, by decide⟩

section Interleaving

variable {α : Type}

theorem mem_set_of_mem_ne {β : Type} (l : List β) (p : Nat) (x y z : β)
    (hx : x ∈ l) (hp : l[p]? = some y) (hne : y ≠ x) : x ∈ l.set p z := by
  obtain ⟨i, hi⟩ := List.mem_iff_getElem?.1 hx
  have hip : p ≠ i := by
    rintro rfl
    rw [hp] at hi
    exact hne (Option.some.inj hi)
  exact List.mem_iff_getElem?.2 ⟨i, by rw [List.getElem?_set_ne hip]; exact hi⟩

theorem mem_set_self_of_getElem? {β : Type} (l : List β) (p : Nat) (y z : β)
    (hp : l[p]? = some y) : z ∈ l.set p z := by
  obtain ⟨hlt, _⟩ := List.getElem?_eq_some.1 hp
  exact List.mem_set l p hlt z

theorem step_enqueue_inv (s t : Sys α) (p : Nat) (q : queue α)
    (h : s.step (Event.enqueue p q) = some t) :
    s.producers[p]? = some PPc.idle
      ∧ t.hub = { s.hub with workingq := (s.hub.workingq.Enqueue1 q).1 }
      ∧ t.producers = s.producers.set p
          (if (s.hub.workingq.Enqueue1 q).2 = 1 then PPc.signalling else PPc.idle) := by
  simp only [Sys.step] at h
  by_cases hc : s.mutex = false ∧ s.producers[p]? = some PPc.idle
  · rw [if_pos hc] at h
    injection h with h
    subst h
    exact ⟨hc.2, rfl, rfl⟩
  · rw [if_neg hc] at h
    cases h

theorem step_signal_inv (t u : Sys α) (p : Nat) (w : Option Nat)
    (h : t.step (Event.signal p w) = some u) :
    t.producers[p]? = some PPc.signalling
      ∧ u.hub = { t.hub with wcond := t.hub.wcond.Signal } := by
  simp only [Sys.step] at h
  by_cases hs : t.producers[p]? = some PPc.signalling
  · rw [if_pos hs] at h
    refine ⟨hs, ?_⟩
    cases w with
    | some c =>
      by_cases hc : t.consumers[c]? = some CPc.parked
      · simp only [if_pos hc, Option.some.injEq] at h
        rw [← h]
      · simp [hc] at h
    | none =>
      by_cases hc : CPc.parked ∈ t.consumers
      · simp [hc] at h
      · simp only [if_neg hc, Option.some.injEq] at h
        rw [← h]
  · rw [if_neg hs] at h
    cases h

/-- The two atomic steps of `put` in the interleaving model add up to the sequential
`put`: when the producer is back outside `put`, right after `Enqueue1` or after its
`Signal()`, the Hub is in the state `put` computes. -/
theorem step_enqueue_agrees_with_put (s t : Sys α) (p : Nat) (q : queue α)
    (h : s.step (Event.enqueue p q) = some t) :
    (t.producers[p]? = some PPc.idle → t.hub = s.hub.put q)
      ∧ (∀ w u, t.step (Event.signal p w) = some u → u.hub = s.hub.put q) := by
  obtain ⟨hidle, hhub, hprod⟩ := step_enqueue_inv s t p q h
  obtain ⟨hlt, _⟩ := List.getElem?_eq_some.1 hidle
  by_cases h1 : (s.hub.workingq.Enqueue1 q).2 = 1
  · rw [if_pos h1] at hprod
    refine ⟨?_, ?_⟩
    · intro hp
      rw [hprod, List.getElem?_set_self hlt] at hp
      cases hp
    · intro w u hu
      obtain ⟨_, hu2⟩ := step_signal_inv t u p w hu
      rw [hu2, hhub]
      simp [batch.put, h1]
  · rw [if_neg h1] at hprod
    refine ⟨?_, ?_⟩
    · intro _
      rw [hhub]
      simp [batch.put, h1]
    · intro w u hu
      obtain ⟨hsig, _⟩ := step_signal_inv t u p w hu
      rw [hprod, List.getElem?_set_self hlt] at hsig
      cases hsig

/-- The atomic step of a consumer holding the mutex is one pass of the loop of the
sequential `wait`: it returns exactly when `wait` returns at once, and parks exactly
when `wait` parks. -/
theorem step_attempt_agrees_with_wait (s t : Sys α) (c : Nat)
    (h : s.step (Event.attempt c) = some t) :
    (∀ q b1, s.hub.wait [] = WaitOutcome.returned q b1 →
        t.hub = b1 ∧ t.consumers[c]? = some CPc.idle)
      ∧ (∀ b1, s.hub.wait [] = WaitOutcome.parked b1 →
        t.hub = b1 ∧ t.consumers[c]? = some CPc.parked) := by
  simp only [Sys.step] at h
  split at h
  · rename_i hc
    obtain ⟨hlt, _⟩ := List.getElem?_eq_some.1 hc
    cases hq : s.hub.workingq.elems with
    | nil =>
      have hd : s.hub.workingq.Dequeue0 = none := by simp [hqu.Queue.Dequeue0, hq]
      rw [hd] at h
      injection h with h
      subst h
      rw [wait_nil_of_nil s.hub hq]
      refine ⟨fun q b1 hw => (by cases hw), fun b1 hw => ?_⟩
      injection hw with hw
      subst hw
      exact ⟨rfl, by simp [List.getElem?_set_self hlt]⟩
    | cons x xs =>
      have hd : s.hub.workingq.Dequeue0 = some (x, { elems := xs }) := by
        simp [hqu.Queue.Dequeue0, hq]
      rw [hd] at h
      injection h with h
      subst h
      rw [wait_of_cons [] s.hub x xs hq]
      refine ⟨fun q b1 hw => ?_, fun b1 hw => (by cases hw)⟩
      injection hw with _ hw
      subst hw
      exact ⟨rfl, by simp [List.getElem?_set_self hlt]⟩
  · cases h

theorem step_consumers_length (s t : Sys α) (e : Event α) (h : s.step e = some t) :
    t.consumers.length = s.consumers.length := by
  cases e with
  | lock c =>
    simp only [Sys.step] at h
    split at h
    · injection h with h
      subst h
      simp
    · cases h
  | attempt c =>
    simp only [Sys.step] at h
    split at h
    · cases hd : s.hub.workingq.Dequeue0 with
      | none =>
        rw [hd] at h
        injection h with h
        subst h
        simp
      | some r =>
        rw [hd] at h
        injection h with h
        subst h
        simp
    · cases h
  | enqueue p q =>
    obtain ⟨_, _, _⟩ := step_enqueue_inv s t p q h
    simp only [Sys.step] at h
    split at h
    · injection h with h
      subst h
      rfl
    · cases h
  | signal p w =>
    simp only [Sys.step] at h
    split at h
    · cases w with
      | some c =>
        simp only at h
        split at h
        · injection h with h
          subst h
          simp
        · cases h
      | none =>
        simp only at h
        split at h
        · cases h
        · injection h with h
          subst h
          rfl
    · cases h

theorem exec_consumers_length (es : List (Event α)) (s t : Sys α)
    (h : s.exec es = some t) : t.consumers.length = s.consumers.length := by
  induction es generalizing s with
  | nil =>
    simp only [Sys.exec] at h
    injection h with h
    subst h
    rfl
  | cons e es ih =>
    simp only [Sys.exec] at h
    cases hst : s.step e with
    | none => rw [hst] at h; cases h
    | some s1 =>
      rw [hst] at h
      rw [ih s1 h, step_consumers_length s s1 e hst]

theorem served_step (s t : Sys α) (e : Event α) (hs : s.Served)
    (h : s.step e = some t) : t.Served := by
  obtain ⟨hne, hinv⟩ := hs
  have hne1 : t.consumers ≠ [] := by
    intro h0
    have hl := step_consumers_length s t e h
    rw [h0] at hl
    exact hne (List.length_eq_zero.1 hl.symm)
  refine ⟨hne1, ?_⟩
  cases e with
  | lock c =>
    simp only [Sys.step] at h
    split at h
    · rename_i hc
      injection h with h
      subst h
      intro _
      right
      refine ⟨CPc.running, ?_, by decide⟩
      rcases hc.2 with h1 | h1
      · exact mem_set_self_of_getElem? _ c _ _ h1
      · exact mem_set_self_of_getElem? _ c _ _ h1
    · cases h
  | attempt c =>
    simp only [Sys.step] at h
    split at h
    · rename_i hc
      cases hq : s.hub.workingq.elems with
      | nil =>
        have hd : s.hub.workingq.Dequeue0 = none := by simp [hqu.Queue.Dequeue0, hq]
        rw [hd] at h
        injection h with h
        subst h
        intro hw
        exact absurd hq hw
      | cons x xs =>
        have hd : s.hub.workingq.Dequeue0 = some (x, { elems := xs }) := by
          simp [hqu.Queue.Dequeue0, hq]
        rw [hd] at h
        injection h with h
        subst h
        intro _
        right
        exact ⟨CPc.idle, mem_set_self_of_getElem? _ c _ _ hc, by decide⟩
    · cases h
  | enqueue p q =>
    obtain ⟨hidle, _, hprod⟩ := step_enqueue_inv s t p q h
    have hcons : t.consumers = s.consumers := by
      simp only [Sys.step] at h
      split at h
      · injection h with h
        subst h
        rfl
      · cases h
    intro _
    rw [hprod, hcons]
    cases hq : s.hub.workingq.elems with
    | nil =>
      left
      simp only [hqu.Queue.Enqueue1, hq, List.nil_append, List.length_singleton, if_true]
      exact mem_set_self_of_getElem? _ p _ _ hidle
    | cons x xs =>
      rcases hinv (by simp [hq]) with h1 | h1
      · left
        exact mem_set_of_mem_ne _ p _ _ _ h1 hidle (by decide)
      · right
        exact h1
  | signal p w =>
    simp only [Sys.step] at h
    split at h
    · cases w with
      | some c =>
        simp only at h
        split at h
        · rename_i hc
          injection h with h
          subst h
          intro _
          right
          exact ⟨CPc.woken, mem_set_self_of_getElem? _ c _ _ hc, by decide⟩
        · cases h
      | none =>
        simp only at h
        split at h
        · cases h
        · rename_i hc
          injection h with h
          subst h
          intro _
          right
          obtain ⟨x, hx⟩ := List.exists_mem_of_ne_nil _ hne
          exact ⟨x, hx, fun hxp => hc (hxp ▸ hx)⟩
    · cases h

theorem served_exec (es : List (Event α)) (s t : Sys α) (hs : s.Served)
    (h : s.exec es = some t) : t.Served := by
  induction es generalizing s with
  | nil =>
    simp only [Sys.exec] at h
    injection h with h
    subst h
    exact hs
  | cons e es ih =>
    simp only [Sys.exec] at h
    cases hst : s.step e with
    | none => rw [hst] at h; cases h
    | some s1 =>
      rw [hst] at h
      exact ih s1 (served_step s s1 e hs hst) h

/-- What the rule of `put` does guarantee, for any number of consumer and producer
goroutines: no schedule from a fresh Hub reaches a state in which every consumer is
parked inside `wait` while the working queue holds a buffer and no producer is about
to signal. -/
theorem never_all_consumers_parked (capacity : Int) (nc np : Nat) (hnc : 0 < nc)
    (es : List (Event α)) (t : Sys α)
    (h : (Sys.init capacity nc np : Sys α).exec es = some t)
    (hq : t.hub.workingq.elems ≠ []) (hall : ∀ c ∈ t.consumers, c = CPc.parked) :
    PPc.signalling ∈ t.producers := by
  have h0 : (Sys.init capacity nc np : Sys α).Served := by
    refine ⟨?_, fun hw => absurd rfl hw⟩
    cases nc with
    | zero => cases hnc
    | succ n => simp [Sys.init, List.replicate_succ]
  obtain ⟨_, hinv⟩ := served_exec es _ t h0 h
  rcases hinv hq with h1 | ⟨c, hc, hcp⟩
  · exact h1
  · exact absurd (hall c hc) hcp

/-- With a single consumer goroutine and any number of producers the rule of `put` is
enough: no schedule from a fresh Hub reaches a state in which the consumer is parked
inside `wait` while the working queue holds a buffer and no wake-up is pending. -/
theorem no_lost_wakeup_with_one_consumer (capacity : Int) (np : Nat)
    (es : List (Event α)) (t : Sys α)
    (h : (Sys.init capacity 1 np : Sys α).exec es = some t) : ¬ t.lostWakeup := by
  rintro ⟨hp, hq, hw⟩
  have hlen : t.consumers.length = 1 := by
    rw [exec_consumers_length es _ t h]
    simp [Sys.init]
  have hall : ∀ c ∈ t.consumers, c = CPc.parked := by
    match hc : t.consumers, hlen with
    | [x], _ =>
      rw [hc] at hp
      intro c hcm
      simp only [List.mem_singleton] at hp hcm
      rw [hcm, ← hp]
  exact hw (Or.inr (never_all_consumers_parked capacity 1 np (by decide) es t h hq hall))

/-- C7, amended: in every interleaving of `put` and `wait` steps of any number of
producers and of at least one consumer on a fresh Hub, the consumers are never all
parked inside `wait` while the working queue holds a buffer and no wake-up is pending;
with a single consumer, that consumer is never parked while the working queue holds a
buffer and no wake-up is pending. -/
theorem C7_consumers_never_all_parked (capacity : Int) (nc np : Nat) (hnc : 0 < nc)
    (es : List (Event α)) (t : Sys α)
    (h : (Sys.init capacity nc np : Sys α).exec es = some t) :
    (t.hub.workingq.elems ≠ [] → (∀ c ∈ t.consumers, c = CPc.parked) → t.wakeupPending)
      ∧ (nc = 1 → ¬ t.lostWakeup) := by
  refine ⟨fun hq hall => Or.inr ?_, fun h1 => ?_⟩
  · exact never_all_consumers_parked capacity nc np hnc es t h hq hall
  · subst h1
    exact no_lost_wakeup_with_one_consumer capacity np es t h

end Interleaving

/-! ## The theorems at concrete inputs -/

/-- C1 at a fresh Hub of capacity 3 with the buffers [1,2,3] and [4,5]: two `put`
calls and two `wait` calls hand them over in order and leave the working queue
empty. -/
theorem C1_working_queue_fifo_witness :
    (NewBatch 3 : batch Nat).workingq.elems = []
      ∧ ([[], []] : List (List (List (queue Nat)))).length
          = ([{ items := [1, 2, 3], capacity := 3 }, { items := [4, 5], capacity := 3 }] :
              List (queue Nat)).length
      ∧ ((NewBatch 3 : batch Nat).puts
            [{ items := [1, 2, 3], capacity := 3 }, { items := [4, 5], capacity := 3 }]).waits
            [[], []]
          = some ([{ items := [1, 2, 3], capacity := 3 }, { items := [4, 5], capacity := 3 }],
              { freelist := { elems := [] }
                workingq := { elems := [] }
                wcond := { signals := 1 }
                capacity := 3 }) :=
  ⟨rfl, rfl,
    (C1_working_queue_fifo (NewBatch 3)
      [{ items := [1, 2, 3], capacity := 3 }, { items := [4, 5], capacity := 3 }]
      [[], []] rfl rfl).1⟩

/-- C3 at a Hub whose working queue is empty: woken twice with nothing published the
goroutine is still parked; woken once with nothing and then after a `put` of [1,2,3]
it returns that buffer. -/
theorem C3_wait_returns_head_or_parks_witness :
    (NewBatch 3 : batch Nat).wait [[], []] = WaitOutcome.parked (NewBatch 3)
      ∧ (NewBatch 3 : batch Nat).wait [[], [{ items := [1, 2, 3], capacity := 3 }]]
          = WaitOutcome.returned { items := [1, 2, 3], capacity := 3 }
              { freelist := { elems := [] }
                workingq := { elems := [] }
                wcond := { signals := 1 }
                capacity := 3 } :=
  ⟨(C3_wait_returns_head_or_parks (NewBatch 3)).2.1 rfl 2,
    (C3_wait_returns_head_or_parks (NewBatch 3)).2.2.1 rfl 1
      { items := [1, 2, 3], capacity := 3 } [] []⟩

/-- C5 at a fresh Hub of capacity 3 and an empty buffer of capacity 3. -/
theorem C5_free_then_get_witness :
    ({ items := [], capacity := 3 } : queue Nat).items = []
      ∧ ((NewBatch 3 : batch Nat).free { items := [], capacity := 3 }).get
          = ({ items := [], capacity := 3 }, NewBatch 3) :=
  ⟨rfl, (C5_free_then_get (NewBatch 3) { items := [], capacity := 3 } rfl).1⟩

/-- C10 on a fresh Hub of capacity 3 with no Handle allocated yet: the first call
returns the pointer 0, the second the pointer 1, the Hub is unchanged, and a write to
the first Handle leaves the second one as it is. -/
theorem C10_GetQueue_side_effect_free_witness :
    (((NewBatch 3 : batch Nat).GetQueue 0 []).hub.GetQueue 0
        ((NewBatch 3 : batch Nat).GetQueue 0 []).mem).hub = NewBatch 3
      ∧ (((NewBatch 3 : batch Nat).GetQueue 0 []).hub.GetQueue 0
          ((NewBatch 3 : batch Nat).GetQueue 0 []).mem).ptr
          ≠ ((NewBatch 3 : batch Nat).GetQueue 0 []).ptr
      ∧ ∀ u : userq Nat,
          ((((NewBatch 3 : batch Nat).GetQueue 0 []).hub.GetQueue 0
              ((NewBatch 3 : batch Nat).GetQueue 0 []).mem).mem.set
                ((NewBatch 3 : batch Nat).GetQueue 0 []).ptr u)[
              (((NewBatch 3 : batch Nat).GetQueue 0 []).hub.GetQueue 0
                ((NewBatch 3 : batch Nat).GetQueue 0 []).mem).ptr]?
            = some { b := 0, q := none } :=
  ⟨((C10_GetQueue_side_effect_free 0 (NewBatch 3) []).2.2.2.2.2 _ _ rfl rfl).1,
    ((C10_GetQueue_side_effect_free 0 (NewBatch 3) []).2.2.2.2.2 _ _ rfl rfl).2.1,
    fun u =>
      (((C10_GetQueue_side_effect_free 0 (NewBatch 3) []).2.2.2.2.2 _ _ rfl rfl).2.2.2.2
        u).1⟩

/-- C6 at the program `Scenario.recycling` on a Hub of capacity 1: the consumer has
put the drained buffer back on the free list, and `get` returns that buffer, empty
and of capacity 1. -/
theorem C6_pool_buffers_empty_of_capacity_witness :
    ((World.init 1 : World Nat).run 0 Scenario.recycling).hub.freelist.elems
        = [{ items := [], capacity := 1 }]
      ∧ ((World.init 1 : World Nat).run 0 Scenario.recycling).hub.get.1.items = []
      ∧ ((World.init 1 : World Nat).run 0 Scenario.recycling).hub.get.1.capacity = 1 :=
  ⟨by decide,
    (C6_pool_buffers_empty_of_capacity 1 0 Scenario.recycling).1.1,
    (C6_pool_buffers_empty_of_capacity 1 0 Scenario.recycling).1.2⟩

/-- C7, amended, at the schedule `Schedule.oneConsumer`: the only consumer is parked,
the working queue holds a buffer, and a wake-up is pending. -/
theorem C7_consumers_never_all_parked_witness :
    0 < 1
      ∧ (Sys.init 3 1 1 : Sys Nat).exec Schedule.oneConsumer = some Schedule.oneConsumerEnd
      ∧ Schedule.oneConsumerEnd.wakeupPending
      ∧ ¬ Schedule.oneConsumerEnd.lostWakeup :=
  ⟨by decide, by decide,
    (C7_consumers_never_all_parked 3 1 1 (by decide) Schedule.oneConsumer
      Schedule.oneConsumerEnd (by decide)).1 (by decide) (by decide),
    (C7_consumers_never_all_parked 3 1 1 (by decide) Schedule.oneConsumer
      Schedule.oneConsumerEnd (by decide)).2 rfl⟩

end batchqueue
